import Mathlib

/-!
Shallow embedding of the fixathon26 research-data pipeline.

The definitions below are translated from the Python sources:
  * `process_articles_fast.py` and `data-pipeline/process_articles_parallel.py`
    (per-article multi-stage pipeline, rate-limited retry wrapper,
    JSON-from-prose extraction, idempotent resumability),
  * `data-pipeline/verify_and_fix_summaries.py` (source-grounding check),
  * `data-pipeline/validate_molecules.py` (PubChem validation pass),
  * `src/backend/app/services/research.py`, `src/backend/app/services/extraction.py`
    and `src/backend/app/api/research.py` (canonical molecule store,
    run/molecule links, research-run admission gate).

Strings are modelled as `List Char` wherever kernel evaluation matters;
network effects (the LLM API, PubChem, the database) are modelled by
explicit oracles / explicit state passing.
-/

namespace Fixathon

/-! ### Generic character/list utilities -/

/-- ASCII whitespace as matched by Python's `\s` on the inputs of interest
(space, tab, newline, carriage return, vertical tab, form feed). -/
def isPyWs (c : Char) : Bool :=
  c = ' ' || c = '\t' || c = '\n' || c = '\r' || c = Char.ofNat 11 || c = Char.ofNat 12

/-- Substring test: does `hay` contain `needle` as a contiguous run?
Models Python's `needle in hay`. -/
def listContains (hay needle : List Char) : Bool :=
  needle.isPrefixOf hay ||
    match hay with
    | [] => false
    | _ :: t => listContains t needle

/-- Collapse a maximal run of whitespace into a single space, emitted at the
start of the run; `inRun` records whether the previous character was part of a
whitespace run already handled. -/
def collapseWsAux (inRun : Bool) : List Char → List Char
  | [] => []
  | c :: cs =>
    if isPyWs c then
      if inRun then collapseWsAux true cs
      else ' ' :: collapseWsAux true cs
    else
      c :: collapseWsAux false cs

/-- Collapse every maximal run of whitespace into a single space.
Models `re.sub(r'\s+', ' ', text)` (no stripping). -/
def collapseWs (cs : List Char) : List Char :=
  collapseWsAux false cs

/-! ### JSON values and a strict JSON parser

Models Python's `json.loads`: the whole input must be exactly one JSON value
(surrounded by optional whitespace), otherwise parsing fails.  Numbers are
kept as their source lexeme (no claim in scope depends on numeric value).
-/

inductive Json where
  | null
  | bool (b : Bool)
  | num (lexeme : String)
  | str (s : String)
  | arr (elems : List Json)
  | obj (fields : List (String × Json))

/-- JSON whitespace accepted by Python's `json.loads` between tokens. -/
def isJsonWs (c : Char) : Bool :=
  c = ' ' || c = '\t' || c = '\n' || c = '\r'

def skipJsonWs : List Char → List Char
  | [] => []
  | c :: cs => if isJsonWs c then skipJsonWs cs else c :: cs

def hexVal (c : Char) : Option Nat :=
  if '0' ≤ c ∧ c ≤ '9' then some (c.toNat - '0'.toNat)
  else if 'a' ≤ c ∧ c ≤ 'f' then some (c.toNat - 'a'.toNat + 10)
  else if 'A' ≤ c ∧ c ≤ 'F' then some (c.toNat - 'A'.toNat + 10)
  else none

/-- Read exactly four hex digits. -/
def readHex4 : List Char → Option (Nat × List Char)
  | a :: b :: c :: d :: rest => do
    let va ← hexVal a
    let vb ← hexVal b
    let vc ← hexVal c
    let vd ← hexVal d
    pure (((va * 16 + vb) * 16 + vc) * 16 + vd, rest)
  | _ => none

/-- Parse the body of a JSON string (the opening quote already consumed).
Returns the decoded characters and the input after the closing quote.
Escapes follow `json.loads`; a UTF-16 surrogate pair in `\uXXXX` escapes is
combined; a lone surrogate (not representable as a Lean `Char`) degrades to
`Char.ofNat` of its code point.  Raw control characters are rejected
(`json.loads` default strict mode). -/
def parseJString : Nat → List Char → Option (List Char × List Char)
  | 0, _ => none
  | _, [] => none
  | fuel + 1, c :: cs =>
    if c = '"' then
      some ([], cs)
    else if c = '\\' then
      match cs with
      | [] => none
      | e :: cs' =>
        let simpleEsc : Option Char :=
          if e = '"' then some '"'
          else if e = '\\' then some '\\'
          else if e = '/' then some '/'
          else if e = 'b' then some (Char.ofNat 8)
          else if e = 'f' then some (Char.ofNat 12)
          else if e = 'n' then some '\n'
          else if e = 'r' then some '\r'
          else if e = 't' then some '\t'
          else none
        match simpleEsc with
        | some ch => do
          let (tail, rest) ← parseJString fuel cs'
          pure (ch :: tail, rest)
        | none =>
          if e = 'u' then do
            let (v, cs₂) ← readHex4 cs'
            if 0xD800 ≤ v ∧ v ≤ 0xDBFF then
              match cs₂ with
              | '\\' :: 'u' :: cs₃ => do
                let (w, cs₄) ← readHex4 cs₃
                if 0xDC00 ≤ w ∧ w ≤ 0xDFFF then do
                  let code := 0x10000 + (v - 0xD800) * 0x400 + (w - 0xDC00)
                  let (tail, rest) ← parseJString fuel cs₄
                  pure (Char.ofNat code :: tail, rest)
                else do
                  let (tail, rest) ← parseJString fuel cs₂
                  pure (Char.ofNat v :: tail, rest)
              | _ => do
                let (tail, rest) ← parseJString fuel cs₂
                pure (Char.ofNat v :: tail, rest)
            else do
              let (tail, rest) ← parseJString fuel cs₂
              pure (Char.ofNat v :: tail, rest)
          else none
    else if c.toNat < 0x20 then
      none
    else do
      let (tail, rest) ← parseJString fuel cs
      pure (c :: tail, rest)

/-- Parse a JSON number lexeme: `-? (0 | [1-9][0-9]*) (. [0-9]+)? ([eE][+-]?[0-9]+)?`. -/
def parseNumber (cs : List Char) : Option (List Char × List Char) :=
  let (sign, cs₁) :=
    match cs with
    | '-' :: t => (['-'], t)
    | _ => (([] : List Char), cs)
  match cs₁ with
  | [] => none
  | c :: t =>
    if ¬ c.isDigit then none
    else
      let (intPart, cs₂) :=
        if c = '0' then (['0'], t)
        else
          let ds := t.takeWhile Char.isDigit
          (c :: ds, t.drop ds.length)
      let fracRes : Option (List Char × List Char) :=
        match cs₂ with
        | '.' :: u =>
          let ds := u.takeWhile Char.isDigit
          if ds.isEmpty then none
          else some ('.' :: ds, u.drop ds.length)
        | _ => some ([], cs₂)
      match fracRes with
      | none => none
      | some (fracPart, cs₃) =>
        let expRes : Option (List Char × List Char) :=
          match cs₃ with
          | e :: u =>
            if e = 'e' ∨ e = 'E' then
              let (es, u') :=
                match u with
                | s :: u'' => if s = '+' ∨ s = '-' then ([e, s], u'') else ([e], u)
                | [] => ([e], u)
              let ds := u'.takeWhile Char.isDigit
              if ds.isEmpty then none
              else some (es ++ ds, u'.drop ds.length)
            else some ([], cs₃)
          | [] => some ([], cs₃)
        match expRes with
        | none => none
        | some (ep, rest) => some (sign ++ intPart ++ fracPart ++ ep, rest)

/-- Value of the first field named `k`, if any. -/
def objFind (k : String) : List (String × Json) → Option Json
  | [] => none
  | (k', v) :: rest => if k' = k then some v else objFind k rest

/-- Drop the first field named `k`. -/
def objErase (k : String) : List (String × Json) → List (String × Json)
  | [] => []
  | (k', v) :: rest => if k' = k then rest else (k', v) :: objErase k rest

/-- Prepend the pair `(k, v)` to the (already deduplicated) fields parsed after
it, with Python `dict` semantics: a key occurring several times keeps the
position of its first occurrence and the value of its last occurrence. -/
def objCons (k : String) (v : Json) (fs : List (String × Json)) : List (String × Json) :=
  match objFind k fs with
  | some v' => (k, v') :: objErase k fs
  | none => (k, v) :: fs

mutual

/-- Parse one JSON value (leading whitespace allowed), returning the rest. -/
def parseValue : Nat → List Char → Option (Json × List Char)
  | 0, _ => none
  | fuel + 1, cs =>
    match skipJsonWs cs with
    | [] => none
    | c :: cs' =>
      if c = '"' then do
        let (content, rest) ← parseJString (fuel + 1) cs'
        pure (Json.str (String.mk content), rest)
      else if c = '[' then
        parseArrayRest fuel cs'
      else if c = '{' then
        parseObjRest fuel cs'
      else if c = 't' then
        if ['r', 'u', 'e'].isPrefixOf cs' then some (Json.bool true, cs'.drop 3) else none
      else if c = 'f' then
        if ['a', 'l', 's', 'e'].isPrefixOf cs' then some (Json.bool false, cs'.drop 4) else none
      else if c = 'n' then
        if ['u', 'l', 'l'].isPrefixOf cs' then some (Json.null, cs'.drop 3) else none
      else if c = 'N' then
        if ['a', 'N'].isPrefixOf cs' then some (Json.num "NaN", cs'.drop 2) else none
      else if c = 'I' then
        if ['n', 'f', 'i', 'n', 'i', 't', 'y'].isPrefixOf cs' then
          some (Json.num "Infinity", cs'.drop 7)
        else none
      else if c = '-' ∧ ['I', 'n', 'f', 'i', 'n', 'i', 't', 'y'].isPrefixOf cs' then
        some (Json.num "-Infinity", cs'.drop 8)
      else
        match parseNumber (c :: cs') with
        | some (lexeme, rest) => some (Json.num (String.mk lexeme), rest)
        | none => none

/-- Parse the rest of an array, the opening `[` already consumed. -/
def parseArrayRest : Nat → List Char → Option (Json × List Char)
  | 0, _ => none
  | fuel + 1, cs =>
    match skipJsonWs cs with
    | [] => none
    | c :: cs' =>
      if c = ']' then some (Json.arr [], cs')
      else do
        let (v, rest) ← parseValue fuel (c :: cs')
        let (vs, rest') ← parseArrayTail fuel rest
        pure (Json.arr (v :: vs), rest')

/-- Parse `(',' value)* ']'` for an array. -/
def parseArrayTail : Nat → List Char → Option (List Json × List Char)
  | 0, _ => none
  | fuel + 1, cs =>
    match skipJsonWs cs with
    | [] => none
    | c :: cs' =>
      if c = ']' then some ([], cs')
      else if c = ',' then do
        let (v, rest) ← parseValue fuel cs'
        let (vs, rest') ← parseArrayTail fuel rest
        pure (v :: vs, rest')
      else none

/-- Parse the rest of an object, the opening `{` already consumed. -/
def parseObjRest : Nat → List Char → Option (Json × List Char)
  | 0, _ => none
  | fuel + 1, cs =>
    match skipJsonWs cs with
    | [] => none
    | c :: cs' =>
      if c = '}' then some (Json.obj [], cs')
      else if c = '"' then do
        let (k, rest₀) ← parseJString (fuel + 1) cs'
        let rest₁ := skipJsonWs rest₀
        match rest₁ with
        | ':' :: rest₂ => do
          let (v, rest₃) ← parseValue fuel rest₂
          let (fs, rest₄) ← parseObjTail fuel rest₃
          pure (Json.obj (objCons (String.mk k) v fs), rest₄)
        | _ => none
      else none

/-- Parse `(',' pair)* '}'` for an object. -/
def parseObjTail : Nat → List Char → Option (List (String × Json) × List Char)
  | 0, _ => none
  | fuel + 1, cs =>
    match skipJsonWs cs with
    | [] => none
    | c :: cs' =>
      if c = '}' then some ([], cs')
      else if c = ',' then
        match skipJsonWs cs' with
        | '"' :: cs₂ => do
          let (k, rest₀) ← parseJString (fuel + 1) cs₂
          match skipJsonWs rest₀ with
          | ':' :: rest₁ => do
            let (v, rest₂) ← parseValue fuel rest₁
            let (fs, rest₃) ← parseObjTail fuel rest₂
            pure (objCons (String.mk k) v fs, rest₃)
          | _ => none
        | _ => none
      else none

end

/-- `json.loads` on a character list: one JSON value, optionally surrounded by
whitespace, nothing else (Python raises `Extra data` on trailing input, which
the callers in scope turn into their failure sentinel). -/
def jsonLoadsL (cs : List Char) : Option Json :=
  match parseValue (cs.length + 1) cs with
  | some (v, rest) => if (skipJsonWs rest).isEmpty then some v else none
  | none => none

/-- `json.loads` on a string. -/
def jsonLoads (s : String) : Option Json :=
  jsonLoadsL s.toList

/-! ### JSON-from-prose extraction (stage 3 and stage 4 response handling)

Both processor variants locate JSON inside the raw LLM response with the
greedy regexes `re.search(r'\[.*\]', response, re.DOTALL)` and
`re.search(r'\{.*\}', response, re.DOTALL)`.
-/

/-- Index of the first occurrence of `c`. -/
def firstIdx (c : Char) : List Char → Option Nat
  | [] => none
  | x :: xs => if x = c then some 0 else (firstIdx c xs).map (· + 1)

/-- Index of the last occurrence of `c`. -/
def lastIdx (c : Char) : List Char → Option Nat
  | [] => none
  | x :: xs =>
    match lastIdx c xs with
    | some k => some (k + 1)
    | none => if x = c then some 0 else none

/-- `re.search(r'OP.*CL', text, re.DOTALL)` with greedy `.*`: the match, when
one exists, runs from the first `op` that still has a `cl` after it to the
last `cl` of the whole text (leftmost start, then longest). -/
def greedySpan (op cl : Char) (cs : List Char) : Option (List Char) :=
  match firstIdx op cs, lastIdx cl cs with
  | some i, some j => if i < j then some ((cs.drop i).take (j - i + 1)) else none
  | _, _ => none

/-- Response handling of `ParallelArticleProcessor.stage3_extract_molecules`
and `UltraFastProcessor.stage3_molecules`: grab the greedy `[...]` span and
`json.loads` it; a missing span or a parse failure yields the empty list.
The Python list returned by `json.loads` is the parsed array's elements. -/
def stage3ExtractMolecules (response : String) : List Json :=
  match greedySpan '[' ']' response.toList with
  | some span =>
    match jsonLoadsL span with
    | some (Json.arr xs) => xs
    | _ => []
  | none => []

/-- The fallback dict `{"pmid": pmid, "topics": [], "keywords": []}`. -/
def topicsKeywordsSentinel (pmid : String) : List (String × Json) :=
  [("pmid", Json.str pmid), ("topics", Json.arr []), ("keywords", Json.arr [])]

/-- Response handling of `ParallelArticleProcessor.stage4_extract_topics_keywords`
and `UltraFastProcessor.stage4_topics_keywords`: grab the greedy `{...}` span
and `json.loads` it; a missing span or a parse failure yields the fallback
dict with empty `topics`/`keywords` arrays. -/
def stage4ExtractTopicsKeywords (response pmid : String) : List (String × Json) :=
  match greedySpan '{' '}' response.toList with
  | some span =>
    match jsonLoadsL span with
    | some (Json.obj fs) => fs
    | _ => topicsKeywordsSentinel pmid
  | none => topicsKeywordsSentinel pmid

/-- `d.get(k, [])` as used on the stage-4 dict when assembling the record. -/
def dictGetList (fs : List (String × Json)) (k : String) : Json :=
  (objFind k fs).getD (Json.arr [])

/-! ### Rate-limited retry wrapper (`UltraFastProcessor.call_claude`) -/

/-- Outcome of one underlying API attempt, as seen by the `except` clause:
an exception message containing "429"/"rate_limit" is a throttling signal,
any other exception is a non-throttling error. -/
inductive CallOutcome where
  | success (text : String)
  | rateLimited
  | otherError

/-- The retry loop of `call_claude`, from attempt number `attempt` with
`remaining = max_retries - attempt` loop iterations left.  Returns the text
handed to the caller together with the list of backoff waits (in seconds)
actually slept.  Falling out of the loop (`remaining = 0`) is the trailing
`return ""`; a throttling failure retries only while `attempt < max_retries - 1`
(i.e. `remaining ≥ 2` here, checked after consuming this iteration), sleeping
`10 * 2 ^ attempt` seconds first; any other error returns `""` at once. -/
def callClaudeLoop (oracle : Nat → CallOutcome) : Nat → Nat → String × List Nat
  | 0, _ => ("", [])
  | remaining + 1, attempt =>
    match oracle attempt with
    | .success t => (t, [])
    | .rateLimited =>
      if 1 ≤ remaining then
        let r := callClaudeLoop oracle remaining (attempt + 1)
        (r.1, 10 * 2 ^ attempt :: r.2)
      else ("", [])
    | .otherError => ("", [])

/-- `call_claude` with its default `max_retries = 3`: result text and waits. -/
def callClaude (oracle : Nat → CallOutcome) : String × List Nat :=
  callClaudeLoop oracle 3 0

/-! ### Stage 1 (clean text), both variants -/

/-- Truncation applied by `UltraFastProcessor.stage1_clean_text`. -/
def truncateFast (text : String) : String :=
  if text.length > 300000 then
    String.mk (text.toList.take 300000) ++ "\n\n[Truncated]"
  else text

/-- `UltraFastProcessor.stage1_clean_text`: builds the cleaning prompt around
the (truncated) text and returns whatever `call_claude` returns — in
particular the empty string whenever the underlying call fails; the original
text is not used as a fallback.  The oracle models the API's responses to
this prompt, so the text itself does not influence the modelled result. -/
def stage1CleanTextFast (oracle : Nat → CallOutcome) (_text : String) : String :=
  (callClaude oracle).1

/-- The `{title, abstract, body}` triple produced by `clean_xml_text`. -/
structure TextSections where
  title : String
  abstract : String
  body : String

/-- The combined text assembled by `ParallelArticleProcessor.stage1_clean_text`
before truncation. -/
def combinedText (s : TextSections) : String :=
  "Title: " ++ s.title ++ "\n\nAbstract:\n" ++ s.abstract ++ "\n\nFull Text:\n" ++ s.body

/-- `ParallelArticleProcessor.stage1_clean_text` truncation: over 300000
characters the text is cut and the marker appended. -/
def truncatedCombined (s : TextSections) : String :=
  let c := combinedText s
  if c.length > 300000 then
    String.mk (c.toList.take 300000) ++ "\n\n[Article truncated]"
  else c

/-- `ParallelArticleProcessor.stage1_clean_text`: a single API call, no retry;
`outcome` is this call's result (`none` = any exception).  On failure the
stage returns the (truncated) combined input text itself. -/
def stage1CleanTextParallel (outcome : Option String) (s : TextSections) : String :=
  match outcome with
  | some resp => resp
  | none => truncatedCombined s

/-! ### Per-article orchestration (`process_article`, both variants)

The on-disk summaries directory is modelled as the list of PMIDs for which an
output record file `PMID{pmid}_analysis.json` exists.  An input XML file is
modelled by its filename together with the `{title, abstract, body}` sections
`clean_xml_text` extracts from it (a parse failure yields all-empty sections,
hence an empty body).
-/

/-- Try to match `PMID(\d+)` at the head of the list: all four letters
followed by at least one digit; the capture is the maximal digit run. -/
def pmidHere (cs : List Char) : Option (List Char) :=
  match cs with
  | 'P' :: 'M' :: 'I' :: 'D' :: rest =>
    let ds := rest.takeWhile Char.isDigit
    if ds.isEmpty then none else some ds
  | _ => none

/-- `extract_pmid_from_filename`: `re.search(r'PMID(\d+)', filename)` — the
digit run after the leftmost occurrence of `PMID` that is followed by at
least one digit. -/
def findPMID : List Char → Option (List Char)
  | [] => none
  | c :: rest =>
    match pmidHere (c :: rest) with
    | some ds => some ds
    | none => findPMID rest

/-- An input article file as the orchestrator sees it. -/
structure ArticleFile where
  filename : String
  title : String
  abstract : String
  body : String

/-- Result of `process_article` on one file: the summaries store afterwards,
how many LLM stage calls were issued, and whether an output record was
written. -/
structure ProcessOutcome where
  store : List String
  llmCalls : Nat
  wrote : Bool

/-- `process_article` (identical control flow in
`ParallelArticleProcessor.process_article` and
`UltraFastProcessor.process_article`): no derivable PMID → skip; output
record already present → skip (the resumability check, before any API
traffic); body missing or shorter than 500 characters → skip; otherwise run
the four stages (four LLM calls) and write the record `PMID{pmid}_analysis.json`. -/
def processArticle (store : List String) (a : ArticleFile) : ProcessOutcome :=
  match findPMID a.filename.toList with
  | none => ⟨store, 0, false⟩
  | some ds =>
    let pmid := String.mk ds
    if store.contains pmid then ⟨store, 0, false⟩
    else if a.body.length < 500 then ⟨store, 0, false⟩
    else ⟨store ++ [pmid], 4, true⟩

/-- The PMID of an article that `process_article` would actually process when
no output exists yet: a derivable PMID and a body of at least 500 characters. -/
def validPMID (a : ArticleFile) : Option String :=
  match findPMID a.filename.toList with
  | none => none
  | some ds => if a.body.length < 500 then none else some (String.mk ds)

/-- One orchestrator run over the input set, threading the summaries store
and accumulating the number of LLM stage calls. -/
def runAll (store : List String) : List ArticleFile → List String × Nat
  | [] => (store, 0)
  | a :: rest =>
    let r := processArticle store a
    let tail := runAll r.store rest
    (tail.1, r.llmCalls + tail.2)

/-! ### Source-grounding check (`verify_and_fix_summaries.py`) -/

/-- Lowercasing as applied by Python's `str.lower` on the character sets in
play: ASCII letters and the Greek capitals that `normalize_text` substitutes
afterwards. -/
def pyLower (c : Char) : Char :=
  if 'A' ≤ c ∧ c ≤ 'Z' then Char.ofNat (c.toNat + 32)
  else if c = 'Α' then 'α'
  else if c = 'Β' then 'β'
  else if c = 'Γ' then 'γ'
  else if c = 'Δ' then 'δ'
  else if c = 'Ε' then 'ε'
  else if c = 'Κ' then 'κ'
  else if c = 'Λ' then 'λ'
  else if c = 'Μ' then 'μ'
  else if c = 'Π' then 'π'
  else if c = 'Σ' then 'σ'
  else if c = 'Τ' then 'τ'
  else if c = 'Ω' then 'ω'
  else c

/-- The substitution table of `normalize_text`.  The Python code runs the
replacements sequentially over the whole string; since no replacement output
contains a key of a later replacement, this equals one character-wise pass. -/
def charSubst (c : Char) : List Char :=
  if c = 'α' then "alpha".toList
  else if c = 'β' then "beta".toList
  else if c = 'γ' then "gamma".toList
  else if c = 'δ' then "delta".toList
  else if c = 'ε' then "epsilon".toList
  else if c = 'κ' then "kappa".toList
  else if c = 'λ' then "lambda".toList
  else if c = 'μ' then "mu".toList
  else if c = 'π' then "pi".toList
  else if c = 'σ' then "sigma".toList
  else if c = 'τ' then "tau".toList
  else if c = 'ω' then "omega".toList
  else if c = '–' then "-".toList
  else if c = '—' then "-".toList
  else if c = '‘' then "'".toList
  else if c = '’' then "'".toList
  else if c = '“' then "\"".toList
  else if c = '”' then "\"".toList
  else [c]

/-- `normalize_text`: lowercase, substitute Greek letters and typographic
punctuation, collapse whitespace runs to single spaces (no stripping). -/
def normalizeText (cs : List Char) : List Char :=
  collapseWs ((cs.map pyLower).flatMap charSubst)

/-- `re.split(r'[\s\-]+', term)`, up to empty tokens: splitting at every
separator character instead of at maximal separator runs only adds empty
tokens, which are never significant (`len(w) > 3` filters them out). -/
def splitWords : List Char → List (List Char)
  | [] => [[]]
  | c :: cs =>
    let rest := splitWords cs
    if isPyWs c || c = '-' then [] :: rest
    else
      match rest with
      | w :: ws => (c :: w) :: ws
      | [] => [[c]]

/-- `check_term_exists term xml_text`: empty inputs fail; otherwise normalize
both sides and try, in order: exact containment; containment with the term's
hyphens replaced by spaces; containment with hyphens deleted from both sides;
and for multi-word terms, that every significant word (length > 3) of the
term occurs in the normalized text. -/
def checkTermExists (term xmlText : String) : Bool :=
  if term.isEmpty || xmlText.isEmpty then false
  else
    let termNorm := normalizeText term.toList
    let xmlNorm := normalizeText xmlText.toList
    let exact := listContains xmlNorm termNorm
    let noHyphen :=
      listContains xmlNorm (termNorm.map (fun c => if c = '-' then ' ' else c))
    let compact :=
      listContains (xmlNorm.filter (· ≠ '-')) (termNorm.filter (· ≠ '-'))
    let multiWord :=
      if termNorm.contains ' ' || termNorm.contains '-' then
        let significant := (splitWords termNorm).filter (fun w => 3 < w.length)
        if significant.isEmpty then false
        else significant.all (fun w => listContains xmlNorm w)
      else false
    exact || noHyphen || compact || multiWord

/-- `verify_molecules` / `verify_keywords`: partition the extracted entity
strings into the verified ones and the removed ones. -/
def verifyMolecules (molecules : List String) (xmlText : String) :
    List String × List String :=
  (molecules.filter (fun m => checkTermExists m xmlText),
   molecules.filter (fun m => ¬ checkTermExists m xmlText))

/-! ### PubChem validation pass (`validate_molecules.py`) -/

/-- Outcome of `search_pubchem` for one name: HTTP 200 with compound data
(optionally an IUPAC preferred name), HTTP 404, or anything else — a network
error or a non-200/404 status — which the function signals as `None`. -/
inductive PubChemOutcome where
  | found (iupacName : Option String)
  | notFound
  | lookupError

/-- `validate_molecule`: three-way classification of one molecule name.
`valid` is Python's `True`/`False`/`None` tri-state; the standardized name is
the IUPAC name when one was returned, otherwise the original name. -/
structure ValidationDetail where
  originalName : String
  valid : Option Bool
  standardizedName : String

def validateMolecule (oracle : String → PubChemOutcome) (name : String) :
    ValidationDetail :=
  match oracle name with
  | .lookupError => ⟨name, none, name⟩
  | .found iupac => ⟨name, some true, iupac.getD name⟩
  | .notFound => ⟨name, some false, name⟩

/-- The aggregate lists built by `validate_molecules_list`. -/
structure ValidationResults where
  valid : List String
  invalid : List String
  unknown : List String
  details : List ValidationDetail

def validateMoleculesList (oracle : String → PubChemOutcome)
    (molecules : List String) : ValidationResults :=
  let ds := molecules.map (validateMolecule oracle)
  { valid := (ds.filter (fun d => d.valid = some true)).map (·.standardizedName)
    invalid := (ds.filter (fun d => d.valid = some false)).map (·.originalName)
    unknown := (ds.filter (fun d => d.valid = none)).map (·.originalName)
    details := ds }

/-- In `validate_article_molecules` with `--fix`, the record's `molecules`
field is overwritten with `validation_results['valid']` — the standardized
names of the affirmatively found molecules only. -/
def fixedMolecules (oracle : String → PubChemOutcome)
    (molecules : List String) : List String :=
  (validateMoleculesList oracle molecules).valid

/-! ### Canonical molecule store (`research.py` / `extraction.py`) -/

/-- `ExtractionService._normalize_name`: lowercase, strip, drop one leading
`l-`, `d-`, `dl-`, `(Â±)-` or plus-slash-minus marker (the fourth is spelled with
the mojibake characters present in the source), then collapse inner
whitespace via `' '.join(name.split())`. -/
def stripPyWs (cs : List Char) : List Char :=
  ((cs.dropWhile isPyWs).reverse.dropWhile isPyWs).reverse

/-- `' '.join(s.split())`: split on whitespace runs, dropping empty tokens,
and re-join with single spaces; equals collapsing runs and stripping. -/
def pySplitJoin (cs : List Char) : List Char :=
  stripPyWs (collapseWs cs)

/-- Drop the first matching alternative of the anchored prefix regex in
`_normalize_name` (`l-`, `d-`, `dl-`, `(Â±)-`, plus-slash-minus). -/
def dropChiralMark (cs : List Char) : List Char :=
  if "l-".toList.isPrefixOf cs then cs.drop 2
  else if "d-".toList.isPrefixOf cs then cs.drop 2
  else if "dl-".toList.isPrefixOf cs then cs.drop 3
  else if "(Â±)-".toList.isPrefixOf cs then cs.drop 5
  else if "+/-".toList.isPrefixOf cs then cs.drop 3
  else cs

def normalizeName (name : String) : String :=
  String.mk (pySplitJoin (dropChiralMark (stripPyWs (name.toList.map pyLower))))

/-- A molecule as extracted by the LLM stage (`ExtractedMolecule`); its
`normalized_name` is always built with `_normalize_name`. -/
structure ExtractedMolecule where
  name : String
  casNumber : Option String

/-- A persisted `SmallMolecule` row. -/
structure SmallMolecule where
  name : String
  normalizedName : String
  casNumber : Option String

/-- `_find_or_create_molecule`: look up by normalized name; failing that, by
CAS number when the extracted molecule carries one; failing both, insert a
new row.  Returns the store afterwards and the canonical row used. -/
def findOrCreateMolecule (db : List SmallMolecule) (e : ExtractedMolecule) :
    List SmallMolecule × SmallMolecule :=
  match db.find? (fun m => m.normalizedName = normalizeName e.name) with
  | some m => (db, m)
  | none =>
    match e.casNumber with
    | some cas =>
      match db.find? (fun m => m.casNumber = some cas) with
      | some m => (db, m)
      | none =>
        let m : SmallMolecule := ⟨e.name, normalizeName e.name, some cas⟩
        (db ++ [m], m)
    | none =>
      let m : SmallMolecule := ⟨e.name, normalizeName e.name, none⟩
      (db ++ [m], m)

/-! ### Run/molecule links (`_link_molecule_to_run`) -/

/-- A `ResearchRunMolecule` row.  Relevance scores are modelled as rationals;
the claims in scope are order-theoretic only. -/
structure RunMoleculeLink where
  runId : Nat
  moleculeId : Nat
  relevanceScore : ℚ

/-- The `where` filter of `_link_molecule_to_run`'s existence query. -/
def isPairLink (runId molId : Nat) (l : RunMoleculeLink) : Bool :=
  l.runId == runId && l.moleculeId == molId

/-- Update the first row for the pair, keeping the stored score unless the
new score is strictly higher. -/
def bumpScore (runId molId : Nat) (score : ℚ) :
    List RunMoleculeLink → List RunMoleculeLink
  | [] => []
  | l :: rest =>
    if isPairLink runId molId l then
      { l with relevanceScore := if l.relevanceScore < score then score else l.relevanceScore } :: rest
    else
      l :: bumpScore runId molId score rest

/-- `_link_molecule_to_run`: if a row for `(run, molecule)` exists, raise its
score when the new one is strictly higher; otherwise insert a new row. -/
def linkMoleculeToRun (links : List RunMoleculeLink) (runId molId : Nat)
    (score : ℚ) : List RunMoleculeLink :=
  if links.any (isPairLink runId molId) then
    bumpScore runId molId score links
  else
    links ++ [⟨runId, molId, score⟩]

/-- The stored score for a pair: the first matching row's score. -/
def storedScore (links : List RunMoleculeLink) (runId molId : Nat) : Option ℚ :=
  (links.find? (isPairLink runId molId)).map (·.relevanceScore)

/-- Number of link rows for a pair. -/
def pairRows (links : List RunMoleculeLink) (runId molId : Nat) : Nat :=
  (links.filter (isPairLink runId molId)).length

/-! ### Research runs and the admission gate
(`api/research.py`, `services/research.py`) -/

inductive RunStatus where
  | queued
  | processing
  | complete
  | failed
deriving DecidableEq

/-- `check_concurrent_run`: is any run `queued` or `processing`? -/
def hasActiveRun (runs : List RunStatus) : Bool :=
  runs.any (fun s => s = .queued || s = .processing)

/-- `create_run` (POST /research): reject with 409 Conflict — creating
nothing — when `check_concurrent_run` reports an active run; otherwise add a
new run in `queued` state. -/
def createRun (runs : List RunStatus) : Except Unit (List RunStatus) :=
  if hasActiveRun runs then .error () else .ok (runs ++ [.queued])

/-- Number of runs in `queued` or `processing` state. -/
def activeRuns (runs : List RunStatus) : Nat :=
  (runs.filter (fun s => s = .queued || s = .processing)).length

/-- The states the stored run set can reach through the API and the pipeline:
`create` is gated by `check_concurrent_run`; `execute_research_pipeline`
moves a queued run to `processing` and then to `complete` or `failed`; the
retry endpoint (POST /research/{id}/retry) resets a `failed` run to `queued`,
checking only that the run is `failed`. -/
inductive ReachableRuns : List RunStatus → Prop where
  | init : ReachableRuns []
  | create (rs : List RunStatus) :
      ReachableRuns rs → hasActiveRun rs = false → ReachableRuns (rs ++ [.queued])
  | start (pre post : List RunStatus) :
      ReachableRuns (pre ++ .queued :: post) →
      ReachableRuns (pre ++ .processing :: post)
  | finishOk (pre post : List RunStatus) :
      ReachableRuns (pre ++ .processing :: post) →
      ReachableRuns (pre ++ .complete :: post)
  | finishErr (pre post : List RunStatus) :
      ReachableRuns (pre ++ .processing :: post) →
      ReachableRuns (pre ++ .failed :: post)
  | retry (pre post : List RunStatus) :
      ReachableRuns (pre ++ .failed :: post) →
      ReachableRuns (pre ++ .queued :: post)

/-- The same transition system without the retry endpoint. -/
inductive ReachableRunsNoRetry : List RunStatus → Prop where
  | init : ReachableRunsNoRetry []
  | create (rs : List RunStatus) :
      ReachableRunsNoRetry rs → hasActiveRun rs = false →
      ReachableRunsNoRetry (rs ++ [.queued])
  | start (pre post : List RunStatus) :
      ReachableRunsNoRetry (pre ++ .queued :: post) →
      ReachableRunsNoRetry (pre ++ .processing :: post)
  | finishOk (pre post : List RunStatus) :
      ReachableRunsNoRetry (pre ++ .processing :: post) →
      ReachableRunsNoRetry (pre ++ .complete :: post)
  | finishErr (pre post : List RunStatus) :
      ReachableRunsNoRetry (pre ++ .processing :: post) →
      ReachableRunsNoRetry (pre ++ .failed :: post)

/-! ### Spec-side and decomposed predicates used to state the claims -/

/-- Depth-counting scan for the spec's reading of the extraction ("the first
balanced span"): `acc` holds the reversed span so far, `depth` the current
nesting depth (at least 1 once the opening character was consumed). -/
def balancedScan (op cl : Char) : List Char → Nat → List Char → Option (List Char)
  | [], _, _ => none
  | c :: cs, depth, acc =>
    if c = op then balancedScan op cl cs (depth + 1) (c :: acc)
    else if c = cl then
      if depth = 1 then some ((c :: acc).reverse)
      else if depth = 0 then none
      else balancedScan op cl cs (depth - 1) (c :: acc)
    else balancedScan op cl cs depth (c :: acc)

/-- Modelled from the spec's words, for comparison with the greedy
implementation: "the first balanced `[...]` span found in the raw response
text" — scan to the first `op` and take everything up to the matching `cl`. -/
def firstBalancedSpan (op cl : Char) (cs : List Char) : Option (List Char) :=
  balancedScan op cl (cs.dropWhile (fun c => ¬ c = op)) 0 []

/-- First grounding test of `check_term_exists`: exact substring containment
of the normalized term in the normalized source text. -/
def testExact (term xmlText : String) : Bool :=
  listContains (normalizeText xmlText.toList) (normalizeText term.toList)

/-- Second grounding test of `check_term_exists` (hyphen/space-insensitive
containment): the term with hyphens replaced by spaces occurs in the text, or
the term with hyphens deleted occurs in the text with hyphens deleted. -/
def testHyphenSpace (term xmlText : String) : Bool :=
  let termNorm := normalizeText term.toList
  let xmlNorm := normalizeText xmlText.toList
  listContains xmlNorm (termNorm.map (fun c => if c = '-' then ' ' else c)) ||
    listContains (xmlNorm.filter (· ≠ '-')) (termNorm.filter (· ≠ '-'))

/-- Third grounding test of `check_term_exists`: for multi-word terms, every
significant word (length > 3) of the normalized term occurs in the normalized
text (the code requires at least one significant word). -/
def testSignificantTokens (term xmlText : String) : Bool :=
  let termNorm := normalizeText term.toList
  let xmlNorm := normalizeText xmlText.toList
  if termNorm.contains ' ' || termNorm.contains '-' then
    let significant := (splitWords termNorm).filter (fun w => 3 < w.length)
    if significant.isEmpty then false
    else significant.all (fun w => listContains xmlNorm w)
  else false

/-- The store condition under which `_find_or_create_molecule` reuses an
existing row instead of creating one: some row matches the normalized name,
or the extracted molecule carries a CAS number that some row carries too. -/
def equivalentInStore (db : List SmallMolecule) (e : ExtractedMolecule) : Bool :=
  db.any (fun m => m.normalizedName = normalizeName e.name) ||
    (match e.casNumber with
     | some cas => db.any (fun m => m.casNumber = some cas)
     | none => false)

/-! ## Theorems

One theorem (plus witness / counterexample where applicable) per claim of the
specification, in claim order.  Shared helper lemmas come first.
-/

/-- Claim C2 (counterexample): when every underlying attempt throttles, the
wrapper performs backoff waits of 10s and 20s only — not the claimed
10s, 20s, 40s — because with `max_retries = 3` the third attempt is the last
and returns the sentinel without sleeping. -/
theorem callClaude_waits_counterexample :
    callClaude (fun _ => CallOutcome.rateLimited) = ("", [10, 20]) ∧
    ([10, 20] : List Nat) ≠ [10, 20, 40] :=
  ⟨rfl, by decide⟩

/-- Claim C2 (amended): with `max_retries = 3`, if every underlying attempt
throttles, `call_claude` sleeps 10s then 20s between its three attempts and
returns the empty-string sentinel (the 40s wait is never reached); for every
oracle the total backoff time is at most 10 + 20 = 30 seconds; and a
non-throttling error on the first attempt is not retried, returning the
empty-string sentinel with no waiting. -/
theorem callClaude_throttling_behavior :
    (∀ oracle : Nat → CallOutcome,
       (∀ n, oracle n = CallOutcome.rateLimited) →
       callClaude oracle = ("", [10, 20])) ∧
    (∀ oracle : Nat → CallOutcome, (callClaude oracle).2.sum ≤ 30) ∧
    (∀ oracle : Nat → CallOutcome,
       oracle 0 = CallOutcome.otherError → callClaude oracle = ("", [])) := by
  refine ⟨?_, ?_, ?_⟩
  · intro oracle h
    simp [callClaude, callClaudeLoop, h 0, h 1, h 2]
  · intro oracle
    cases h0 : oracle 0 <;> cases h1 : oracle 1 <;> cases h2 : oracle 2 <;>
      simp [callClaude, callClaudeLoop, h0, h1, h2]
  · intro oracle h
    simp [callClaude, callClaudeLoop, h]

/-- Claim C2 (witness): the amended theorem applied to the always-throttling
oracle. -/
theorem callClaude_throttling_behavior_witness :
    callClaude (fun _ => CallOutcome.rateLimited) = ("", [10, 20]) :=
  callClaude_throttling_behavior.1 (fun _ => CallOutcome.rateLimited) (fun _ => rfl)

/-- Claim C9 (counterexample): in `process_articles_fast.py` the clean stage
returns the empty string — not the original text — when the underlying call
fails, although the input text is non-empty. -/
theorem stage1Fast_empty_counterexample :
    stage1CleanTextFast (fun _ => CallOutcome.rateLimited) "A nonempty article text" = "" ∧
    ("A nonempty article text" : String) ≠ "" :=
  ⟨rfl, by decide⟩

/-- Claim C9 (amended): the two clean-stage variants differ.  In
`process_articles_parallel.py` a failed call returns the (truncated) combined
input text, which is never empty; in `process_articles_fast.py` a failed call
— whether exhausted throttling retries or an immediate non-throttling error —
returns the empty string. -/
theorem stage1CleanText_failure_sentinels :
    (∀ s : TextSections,
       stage1CleanTextParallel none s = truncatedCombined s ∧ truncatedCombined s ≠ "") ∧
    (∀ (oracle : Nat → CallOutcome) (text : String),
       (∀ n, oracle n = CallOutcome.rateLimited) → stage1CleanTextFast oracle text = "") ∧
    (∀ (oracle : Nat → CallOutcome) (text : String),
       oracle 0 = CallOutcome.otherError → stage1CleanTextFast oracle text = "") := by
  refine ⟨?_, ?_, ?_⟩
  · intro s
    refine ⟨rfl, ?_⟩
    intro h
    simp only [truncatedCombined] at h
    split at h
    · have hlen := congrArg String.length h
      simp only [String.length_append] at hlen
      have h1 : ("\n\n[Article truncated]" : String).length = 21 := rfl
      have h2 : ("" : String).length = 0 := rfl
      omega
    · have hlen := congrArg String.length h
      simp only [combinedText, String.length_append] at hlen
      have h1 : ("Title: " : String).length = 7 := rfl
      have h2 : ("" : String).length = 0 := rfl
      omega
  · intro oracle text h
    simp [stage1CleanTextFast, callClaude, callClaudeLoop, h 0, h 1, h 2]
  · intro oracle text h
    simp [stage1CleanTextFast, callClaude, callClaudeLoop, h]

/-- Claim C9 (witness): the amended theorem applied to concrete sections and
to the always-throttling oracle on a concrete text. -/
theorem stage1CleanText_failure_sentinels_witness :
    stage1CleanTextParallel none ⟨"T", "A", "B"⟩ = truncatedCombined ⟨"T", "A", "B"⟩ ∧
    stage1CleanTextFast (fun _ => CallOutcome.rateLimited) "body text" = "" :=
  ⟨(stage1CleanText_failure_sentinels.1 ⟨"T", "A", "B"⟩).1,
   stage1CleanText_failure_sentinels.2.1 (fun _ => CallOutcome.rateLimited) "body text"
     (fun _ => rfl)⟩

/-! Helper lemmas about `activeRuns`. -/

lemma activeRuns_middle (pre post : List RunStatus) (s : RunStatus) :
    activeRuns (pre ++ s :: post) = activeRuns pre + activeRuns [s] + activeRuns post := by
  simp only [activeRuns, List.filter_append, List.filter_cons, List.length_append]
  split <;> simp <;> omega

lemma activeRuns_eq_zero_of_not_active {rs : List RunStatus}
    (h : hasActiveRun rs = false) : activeRuns rs = 0 := by
  simp only [hasActiveRun, List.any_eq_false] at h
  simp only [activeRuns, List.length_eq_zero, List.filter_eq_nil_iff]
  intro s hs
  exact fun hb => h s hs hb

/-- Claim C8 (counterexample): a state with two simultaneously active runs
(one `queued`, one `processing`) is reachable through the implemented
operations, because the retry endpoint resets a `failed` run to `queued`
without consulting `check_concurrent_run`; so the claimed system-wide
invariant does not hold. -/
theorem researchRuns_two_active_counterexample :
    ReachableRuns [RunStatus.queued, RunStatus.processing] ∧
    activeRuns [RunStatus.queued, RunStatus.processing] = 2 := by
  constructor
  · have h1 : ReachableRuns [RunStatus.queued] :=
      ReachableRuns.create [] ReachableRuns.init (by decide)
    have h2 : ReachableRuns [RunStatus.processing] := ReachableRuns.start [] [] h1
    have h3 : ReachableRuns [RunStatus.failed] := ReachableRuns.finishErr [] [] h2
    have h4 : ReachableRuns [RunStatus.failed, RunStatus.queued] :=
      ReachableRuns.create [RunStatus.failed] h3 (by decide)
    have h5 : ReachableRuns [RunStatus.failed, RunStatus.processing] :=
      ReachableRuns.start [RunStatus.failed] [] h4
    exact ReachableRuns.retry [] [RunStatus.processing] h5
  · decide

/-- Claim C8 (amended): the admission gate holds at the create endpoint — a
request while some run is `queued` or `processing` is rejected with 409 and
creates nothing, and a request while every run is `complete` or `failed`
appends a new `queued` run — and the at-most-one-active invariant holds for
every state reachable without the retry endpoint; the retry endpoint,
however, re-queues a failed run without the gate (see the counterexample). -/
theorem createRun_admission_gate :
    (∀ runs, hasActiveRun runs = true → createRun runs = Except.error ()) ∧
    (∀ runs, hasActiveRun runs = false →
       createRun runs = Except.ok (runs ++ [RunStatus.queued])) ∧
    (∀ runs, ReachableRunsNoRetry runs → activeRuns runs ≤ 1) := by
  refine ⟨?_, ?_, ?_⟩
  · intro runs h
    simp [createRun, h]
  · intro runs h
    simp [createRun, h]
  · intro runs h
    induction h with
    | init => decide
    | create rs _ hact ih =>
      have h0 : activeRuns rs = 0 := activeRuns_eq_zero_of_not_active hact
      have : activeRuns (rs ++ [RunStatus.queued]) =
          activeRuns rs + activeRuns [RunStatus.queued] := by
        simp [activeRuns, List.filter_append]
      rw [this, h0]
      decide
    | start pre post _ ih =>
      rw [activeRuns_middle] at ih ⊢
      have e1 : activeRuns [RunStatus.queued] = 1 := rfl
      have e2 : activeRuns [RunStatus.processing] = 1 := rfl
      omega
    | finishOk pre post _ ih =>
      rw [activeRuns_middle] at ih ⊢
      have e1 : activeRuns [RunStatus.processing] = 1 := rfl
      have e2 : activeRuns [RunStatus.complete] = 0 := rfl
      omega
    | finishErr pre post _ ih =>
      rw [activeRuns_middle] at ih ⊢
      have e1 : activeRuns [RunStatus.processing] = 1 := rfl
      have e2 : activeRuns [RunStatus.failed] = 0 := rfl
      omega

/-- Claim C8 (witness): the amended theorem applied to concrete run sets:
creation succeeds next to only terminal runs and is rejected next to a
processing run. -/
theorem createRun_admission_gate_witness :
    hasActiveRun [RunStatus.complete, RunStatus.failed] = false ∧
    createRun [RunStatus.complete, RunStatus.failed] =
      Except.ok [RunStatus.complete, RunStatus.failed, RunStatus.queued] ∧
    hasActiveRun [RunStatus.processing] = true ∧
    createRun [RunStatus.processing] = Except.error () :=
  ⟨by decide,
   createRun_admission_gate.2.1 [RunStatus.complete, RunStatus.failed] (by decide),
   by decide,
   createRun_admission_gate.1 [RunStatus.processing] (by decide)⟩

/-! Helper lemmas about `_link_molecule_to_run`. -/

lemma find?_append_of_none {α : Type} {p : α → Bool} {l₁ l₂ : List α}
    (h : l₁.find? p = none) : (l₁ ++ l₂).find? p = l₂.find? p := by
  induction l₁ with
  | nil => rfl
  | cons a l ih =>
    cases hp : p a with
    | true => rw [List.find?_cons_of_pos _ hp] at h; exact absurd h (by simp)
    | false =>
      rw [List.find?_cons_of_neg _ (by simp [hp])] at h
      rw [List.cons_append, List.find?_cons_of_neg _ (by simp [hp])]
      exact ih h

lemma storedScore_bumpScore (r m : Nat) (s : ℚ) (links : List RunMoleculeLink) :
    storedScore (bumpScore r m s links) r m =
      (storedScore links r m).map (fun old => if old < s then s else old) := by
  induction links with
  | nil => rfl
  | cons l rest ih =>
    by_cases hp : isPairLink r m l
    · have hp' : isPairLink r m
          { l with relevanceScore := if l.relevanceScore < s then s else l.relevanceScore } = true := hp
      rw [show bumpScore r m s (l :: rest) =
          { l with relevanceScore := if l.relevanceScore < s then s else l.relevanceScore } :: rest
        from by simp [bumpScore, hp]]
      simp only [storedScore, List.find?_cons_of_pos _ hp, List.find?_cons_of_pos _ hp']
      rfl
    · rw [show bumpScore r m s (l :: rest) = l :: bumpScore r m s rest
        from by simp [bumpScore, hp]]
      simp only [storedScore, List.find?_cons_of_neg _ (by simpa using hp)]
      exact ih

lemma pairRows_bumpScore (r m : Nat) (s : ℚ) (links : List RunMoleculeLink) :
    pairRows (bumpScore r m s links) r m = pairRows links r m := by
  induction links with
  | nil => rfl
  | cons l rest ih =>
    by_cases hp : isPairLink r m l
    · have hp' : isPairLink r m
          { l with relevanceScore := if l.relevanceScore < s then s else l.relevanceScore } = true := hp
      rw [show bumpScore r m s (l :: rest) =
          { l with relevanceScore := if l.relevanceScore < s then s else l.relevanceScore } :: rest
        from by simp [bumpScore, hp]]
      simp [pairRows, List.filter_cons, hp, hp']
    · rw [show bumpScore r m s (l :: rest) = l :: bumpScore r m s rest
        from by simp [bumpScore, hp]]
      simp only [pairRows, List.filter_cons, hp, Bool.false_eq_true, if_false]
      exact ih

lemma storedScore_linkMoleculeToRun (links : List RunMoleculeLink) (r m : Nat)
    (s : ℚ) :
    storedScore (linkMoleculeToRun links r m s) r m =
      some (match storedScore links r m with
            | some old => if old < s then s else old
            | none => s) := by
  by_cases hany : links.any (isPairLink r m)
  · rw [linkMoleculeToRun, if_pos hany, storedScore_bumpScore]
    obtain ⟨l, hl, hpl⟩ := List.any_eq_true.mp hany
    have hsome : (links.find? (isPairLink r m)).isSome := by
      rw [List.find?_isSome]
      exact ⟨l, hl, hpl⟩
    obtain ⟨l₀, hl₀⟩ := Option.isSome_iff_exists.mp hsome
    simp [storedScore, hl₀]
  · have hnone : links.find? (isPairLink r m) = none := by
      rw [List.find?_eq_none]
      intro x hx
      exact fun hb => hany (List.any_eq_true.mpr ⟨x, hx, hb⟩)
    rw [linkMoleculeToRun, if_neg hany]
    have hpair : isPairLink r m ⟨r, m, s⟩ = true := by simp [isPairLink]
    simp [storedScore, find?_append_of_none hnone, List.find?_cons, hpair, hnone]

lemma ite_lt_eq_max (a b : ℚ) : (if a < b then b else a) = max a b := by
  rcases le_or_lt b a with h | h
  · rw [if_neg (not_lt.mpr h), max_eq_left h]
  · rw [if_pos h, max_eq_right h.le]

lemma storedScore_foldl_link (r m : Nat) (ss : List ℚ) :
    ∀ (links : List RunMoleculeLink) (acc : ℚ),
      storedScore links r m = some acc →
      storedScore (ss.foldl (fun ls s => linkMoleculeToRun ls r m s) links) r m =
        some (ss.foldl max acc) := by
  induction ss with
  | nil => intro links acc h; simpa using h
  | cons s ss ih =>
    intro links acc h
    have hstep : storedScore (linkMoleculeToRun links r m s) r m = some (max acc s) := by
      rw [storedScore_linkMoleculeToRun, h]
      exact congrArg some (ite_lt_eq_max acc s)
    simpa using ih (linkMoleculeToRun links r m s) (max acc s) hstep

/-- Claim C10: `_link_molecule_to_run` keeps at most one row per
(run, molecule) pair; re-linking overwrites the stored relevance score only
when the new score is strictly higher (so the stored value is `max old new`);
a first sighting stores the score as given; and across any sequence of
sightings the stored score equals the running maximum of all scores seen. -/
theorem linkMoleculeToRun_max_score :
    (∀ (links : List RunMoleculeLink) (r m : Nat) (s : ℚ),
       pairRows links r m ≤ 1 → pairRows (linkMoleculeToRun links r m s) r m ≤ 1) ∧
    (∀ (links : List RunMoleculeLink) (r m : Nat) (s old : ℚ),
       storedScore links r m = some old →
       storedScore (linkMoleculeToRun links r m s) r m = some (max old s)) ∧
    (∀ (links : List RunMoleculeLink) (r m : Nat) (s : ℚ),
       storedScore links r m = none →
       storedScore (linkMoleculeToRun links r m s) r m = some s) ∧
    (∀ (r m : Nat) (s₀ : ℚ) (ss : List ℚ),
       storedScore
           (ss.foldl (fun ls s => linkMoleculeToRun ls r m s)
             (linkMoleculeToRun [] r m s₀)) r m =
         some (ss.foldl max s₀)) := by
  refine ⟨?_, ?_, ?_, ?_⟩
  · intro links r m s h
    by_cases hany : links.any (isPairLink r m)
    · rw [linkMoleculeToRun, if_pos hany, pairRows_bumpScore]
      exact h
    · have hzero : pairRows links r m = 0 := by
        simp only [pairRows, List.length_eq_zero, List.filter_eq_nil_iff]
        intro x hx
        exact fun hb => hany (List.any_eq_true.mpr ⟨x, hx, hb⟩)
      rw [linkMoleculeToRun, if_neg hany]
      have hpair : isPairLink r m ⟨r, m, s⟩ = true := by simp [isPairLink]
      have hsum : pairRows (links ++ [⟨r, m, s⟩]) r m = pairRows links r m + 1 := by
        simp [pairRows, List.filter_append, List.filter_cons, hpair]
      rw [hsum, hzero]
  · intro links r m s old h
    rw [storedScore_linkMoleculeToRun, h]
    exact congrArg some (ite_lt_eq_max old s)
  · intro links r m s h
    rw [storedScore_linkMoleculeToRun, h]
  · intro r m s₀ ss
    have hfirst : storedScore (linkMoleculeToRun [] r m s₀) r m = some s₀ := by
      rw [storedScore_linkMoleculeToRun]
      rfl
    exact storedScore_foldl_link r m ss _ s₀ hfirst

/-- Claim C10 (witness): the theorem applied to a concrete link table — a
second sighting of the pair `(1, 2)` with a higher score stores the maximum. -/
theorem linkMoleculeToRun_max_score_witness :
    pairRows [(⟨1, 2, 1⟩ : RunMoleculeLink)] 1 2 ≤ 1 ∧
    storedScore [(⟨1, 2, 1⟩ : RunMoleculeLink)] 1 2 = some 1 ∧
    storedScore (linkMoleculeToRun [(⟨1, 2, 1⟩ : RunMoleculeLink)] 1 2 2) 1 2 =
      some (max 1 2) :=
  ⟨by decide, by decide,
   linkMoleculeToRun_max_score.2.1 [⟨1, 2, 1⟩] 1 2 2 1 (by decide)⟩

/-! Helper lemmas about the PubChem validation pass. -/

lemma unknown_of_all_errors (oracle : String → PubChemOutcome) (ms : List String)
    (h : ∀ m ∈ ms, oracle m = PubChemOutcome.lookupError) :
    (validateMoleculesList oracle ms).unknown = ms := by
  induction ms with
  | nil => rfl
  | cons x xs ih =>
    have hx := h x (by simp)
    have ihx := ih (fun m hm => h m (by simp [hm]))
    simp only [validateMoleculesList, List.map_cons, List.filter_cons] at ihx ⊢
    simp [validateMolecule, hx] at ihx ⊢
    exact ihx

lemma valid_of_all_errors (oracle : String → PubChemOutcome) (ms : List String)
    (h : ∀ m ∈ ms, oracle m = PubChemOutcome.lookupError) :
    (validateMoleculesList oracle ms).valid = [] := by
  induction ms with
  | nil => rfl
  | cons x xs ih =>
    have hx := h x (by simp)
    have ihx := ih (fun m hm => h m (by simp [hm]))
    simp only [validateMoleculesList, List.map_cons, List.filter_cons] at ihx ⊢
    simp [validateMolecule, hx] at ihx ⊢
    exact ihx

/-- Claim C6 (counterexample): with a single molecule whose registry lookup
errors, the pass classifies it `unknown`, yet fix mode replaces the record's
molecules list with the valid list only — the unknown molecule is not
preserved in the list. -/
theorem validateMolecules_fix_drops_unknown_counterexample :
    (validateMoleculesList (fun _ => PubChemOutcome.lookupError) ["foo"]).unknown = ["foo"] ∧
    fixedMolecules (fun _ => PubChemOutcome.lookupError) ["foo"] = [] ∧
    "foo" ∉ fixedMolecules (fun _ => PubChemOutcome.lookupError) ["foo"] := by
  refine ⟨rfl, rfl, ?_⟩
  intro h
  simp [fixedMolecules, validateMoleculesList, validateMolecule] at h

/-- Claim C6 (amended): a molecule whose registry lookup ends in a transient
error is classified `unknown` — a tri-state distinct from `invalid` (not
found) — but in fix mode the record's molecules list becomes the
standardized names of the affirmatively found molecules only, so unknown
molecules are removed from the list as well (they remain recorded in the
returned `unknown` list): when every lookup errors, `unknown` is the whole
input and the fixed list is empty. -/
theorem validateMolecules_unknown_classification :
    (∀ (oracle : String → PubChemOutcome) (molecules : List String) (m : String),
       oracle m = PubChemOutcome.lookupError → m ∈ molecules →
       m ∈ (validateMoleculesList oracle molecules).unknown ∧
       m ∉ (validateMoleculesList oracle molecules).invalid ∧
       (validateMolecule oracle m).valid = none) ∧
    (∀ (oracle : String → PubChemOutcome) (molecules : List String),
       (∀ m ∈ molecules, oracle m = PubChemOutcome.lookupError) →
       (validateMoleculesList oracle molecules).unknown = molecules ∧
       fixedMolecules oracle molecules = []) := by
  constructor
  · intro oracle molecules m hm hmem
    have horig : ∀ n, (validateMolecule oracle n).originalName = n := by
      intro n
      cases h : oracle n <;> simp [validateMolecule, h]
    refine ⟨?_, ?_, ?_⟩
    · simp only [validateMoleculesList, List.mem_map, List.mem_filter]
      refine ⟨validateMolecule oracle m, ⟨⟨m, hmem, rfl⟩, ?_⟩, horig m⟩
      simp [validateMolecule, hm]
    · intro hcontra
      simp only [validateMoleculesList, List.mem_map, List.mem_filter,
        List.mem_map] at hcontra
      obtain ⟨d, ⟨⟨x, hx, hdx⟩, hdvalid⟩, hdname⟩ := hcontra
      have hxm : x = m := by
        have hox := horig x
        rw [hdx] at hox
        rw [hox] at hdname
        exact hdname
      rw [hxm] at hdx
      rw [← hdx] at hdvalid
      simp [validateMolecule, hm] at hdvalid
    · simp [validateMolecule, hm]
  · intro oracle molecules h
    exact ⟨unknown_of_all_errors oracle molecules h,
      valid_of_all_errors oracle molecules h⟩

/-- Claim C6 (witness): the amended theorem applied to a concrete oracle that
errors on `"foo"` and finds `"bar"`. -/
theorem validateMolecules_unknown_classification_witness :
    (fun n => if n = "foo" then PubChemOutcome.lookupError
              else PubChemOutcome.found none) "foo" = PubChemOutcome.lookupError ∧
    "foo" ∈ (["bar", "foo"] : List String) ∧
    "foo" ∈ (validateMoleculesList
      (fun n => if n = "foo" then PubChemOutcome.lookupError
                else PubChemOutcome.found none) ["bar", "foo"]).unknown :=
  ⟨rfl, by decide,
   (validateMolecules_unknown_classification.1
     (fun n => if n = "foo" then PubChemOutcome.lookupError
               else PubChemOutcome.found none)
     ["bar", "foo"] "foo" rfl (by decide)).1⟩

/-! Helper lemma relating `any` and `find?`. -/

lemma any_eq_false_find?_none {α : Type} {p : α → Bool} {l : List α}
    (h : l.any p = false) : l.find? p = none := by
  rw [List.find?_eq_none]
  intro x hx hpx
  have h2 := List.any_eq_true.mpr ⟨x, hx, hpx⟩
  rw [h] at h2
  exact Bool.false_ne_true h2

/-- Claim C7: folding an extracted molecule into the canonical store creates
a new row exactly when no row matches the normalized name and no row matches
a CAS number carried by both sides; when an equivalent row exists the store
is unchanged and the row returned is that existing row; and inserting
`"Nitrate"` then `"nitrate "` (trailing space) into an empty store yields
exactly one canonical record. -/
theorem findOrCreateMolecule_dedup :
    (∀ (db : List SmallMolecule) (e : ExtractedMolecule),
       (findOrCreateMolecule db e).1 =
         (if equivalentInStore db e then db
          else db ++ [⟨e.name, normalizeName e.name, e.casNumber⟩])) ∧
    (∀ (db : List SmallMolecule) (e : ExtractedMolecule),
       equivalentInStore db e = true →
       (findOrCreateMolecule db e).1 = db ∧ (findOrCreateMolecule db e).2 ∈ db) ∧
    (findOrCreateMolecule
        (findOrCreateMolecule [] ⟨"Nitrate", none⟩).1 ⟨"nitrate ", none⟩).1.length = 1 := by
  have hstore : ∀ (db : List SmallMolecule) (e : ExtractedMolecule),
      (findOrCreateMolecule db e).1 =
        (if equivalentInStore db e then db
         else db ++ [⟨e.name, normalizeName e.name, e.casNumber⟩]) := by
    intro db e
    unfold findOrCreateMolecule
    cases hname : db.find? (fun m => m.normalizedName = normalizeName e.name) with
    | some m =>
      have : equivalentInStore db e = true := by
        have := List.find?_some hname
        have hmem := List.mem_of_find?_eq_some hname
        simp only [equivalentInStore, Bool.or_eq_true, List.any_eq_true]
        exact Or.inl ⟨m, hmem, this⟩
      simp [this]
    | none =>
      have hnameany : db.any (fun m => m.normalizedName = normalizeName e.name) = false := by
        rw [List.any_eq_false]
        intro x hx
        rw [List.find?_eq_none] at hname
        exact hname x hx
      cases hcase : e.casNumber with
      | none => simp [equivalentInStore, hnameany, hcase]
      | some cas =>
        cases hcas : db.find? (fun m => m.casNumber = some cas) with
        | some m =>
          have : equivalentInStore db e = true := by
            have := List.find?_some hcas
            have hmem := List.mem_of_find?_eq_some hcas
            simp only [equivalentInStore, Bool.or_eq_true, List.any_eq_true, hcase]
            exact Or.inr ⟨m, hmem, this⟩
          simp [this, hcas]
        | none =>
          have hcasany : db.any (fun m => m.casNumber = some cas) = false := by
            rw [List.any_eq_false]
            intro x hx
            rw [List.find?_eq_none] at hcas
            exact hcas x hx
          simp [equivalentInStore, hnameany, hcase, hcasany, hcas]
  refine ⟨hstore, ?_, ?_⟩
  · intro db e heq
    refine ⟨by rw [hstore, if_pos heq], ?_⟩
    unfold findOrCreateMolecule
    cases hname : db.find? (fun m => m.normalizedName = normalizeName e.name) with
    | some m => exact List.mem_of_find?_eq_some hname
    | none =>
      cases hcase : e.casNumber with
      | none =>
        exfalso
        have hnameany : db.any (fun m => m.normalizedName = normalizeName e.name) = false := by
          rw [List.any_eq_false]
          intro x hx
          rw [List.find?_eq_none] at hname
          exact hname x hx
        simp [equivalentInStore, hnameany, hcase] at heq
      | some cas =>
        cases hcas : db.find? (fun m => m.casNumber = some cas) with
        | some m =>
          simp only [hcas]
          exact List.mem_of_find?_eq_some hcas
        | none =>
          exfalso
          have hnameany : db.any (fun m => m.normalizedName = normalizeName e.name) = false := by
            rw [List.any_eq_false]
            intro x hx
            rw [List.find?_eq_none] at hname
            exact hname x hx
          have hcasany : db.any (fun m => m.casNumber = some cas) = false := by
            rw [List.any_eq_false]
            intro x hx
            rw [List.find?_eq_none] at hcas
            exact hcas x hx
          simp [equivalentInStore, hnameany, hcase, hcasany] at heq
  · decide

/-- Claim C7 (witness): the theorem applied to a concrete store holding the
canonical `nitrate` record and the re-extracted `"nitrate "` entity. -/
theorem findOrCreateMolecule_dedup_witness :
    equivalentInStore [⟨"Nitrate", "nitrate", none⟩] ⟨"nitrate ", none⟩ = true ∧
    (findOrCreateMolecule [⟨"Nitrate", "nitrate", none⟩] ⟨"nitrate ", none⟩).1 =
      [⟨"Nitrate", "nitrate", none⟩] :=
  ⟨by decide,
   (findOrCreateMolecule_dedup.2.1 [⟨"Nitrate", "nitrate", none⟩]
     ⟨"nitrate ", none⟩ (by decide)).1⟩

/-- Claim C5: on non-empty inputs the source-grounding check retains an
entity exactly when it passes one of the three tests — exact containment,
hyphen/space-insensitive containment, or (for multi-word entities) all
significant tokens present — after normalizing both sides; a retained entity
stays in the verified list and a failing entity moves to the removed list
(recorded, not dropped); and `"alpha-ketoglutarate"` is retained against a
source text containing `"alpha ketoglutarate"` while an absent compound is
removed. -/
theorem checkTermExists_three_tests :
    (∀ term xmlText : String, term.isEmpty = false → xmlText.isEmpty = false →
       checkTermExists term xmlText =
         (testExact term xmlText || testHyphenSpace term xmlText ||
          testSignificantTokens term xmlText)) ∧
    (∀ (molecules : List String) (xmlText m : String), m ∈ molecules →
       checkTermExists m xmlText = false →
       m ∈ (verifyMolecules molecules xmlText).2 ∧
       m ∉ (verifyMolecules molecules xmlText).1) ∧
    (∀ (molecules : List String) (xmlText m : String), m ∈ molecules →
       checkTermExists m xmlText = true →
       m ∈ (verifyMolecules molecules xmlText).1 ∧
       m ∉ (verifyMolecules molecules xmlText).2) ∧
    checkTermExists "alpha-ketoglutarate" "Levels of alpha ketoglutarate rose" = true ∧
    checkTermExists "xyz-nonexistent-compound" "Levels of alpha ketoglutarate rose" = false := by
  refine ⟨?_, ?_, ?_, by decide, by decide⟩
  · intro term xmlText ht hx
    simp [checkTermExists, testExact, testHyphenSpace, testSignificantTokens,
      ht, hx, Bool.or_assoc]
  · intro molecules xmlText m hm hfalse
    constructor
    · simp [verifyMolecules, List.mem_filter, hm, hfalse]
    · simp [verifyMolecules, List.mem_filter, hfalse]
  · intro molecules xmlText m hm htrue
    constructor
    · simp [verifyMolecules, List.mem_filter, hm, htrue]
    · simp [verifyMolecules, List.mem_filter, htrue]

/-! Helper lemmas about `greedySpan` on a decomposed input. -/

lemma firstIdx_append_cons {c : Char} (pre rest : List Char) (h : c ∉ pre) :
    firstIdx c (pre ++ c :: rest) = some pre.length := by
  induction pre with
  | nil => simp [firstIdx]
  | cons a pre ih =>
    have ha : ¬ a = c := fun e => h (by simp [e])
    simp [firstIdx, ha, ih (fun hc => h (List.mem_cons_of_mem _ hc))]

lemma lastIdx_eq_none {c : Char} {l : List Char} (h : c ∉ l) :
    lastIdx c l = none := by
  induction l with
  | nil => rfl
  | cons a l ih =>
    have ha : ¬ a = c := fun e => h (by simp [e])
    simp [lastIdx, ha, ih (fun hc => h (List.mem_cons_of_mem _ hc))]

lemma lastIdx_append_of_not_mem {c : Char} (xs post : List Char) (h : c ∉ post) :
    lastIdx c (xs ++ post) = lastIdx c xs := by
  induction xs with
  | nil => simp [lastIdx_eq_none h, lastIdx]
  | cons a xs ih =>
    simp only [List.cons_append, lastIdx, List.append_eq, ih]

lemma lastIdx_snoc_self (c : Char) (ys : List Char) :
    lastIdx c (ys ++ [c]) = some ys.length := by
  induction ys with
  | nil => simp [lastIdx]
  | cons a ys ih => simp [lastIdx, ih]

/-- On an input of shape `pre ++ op :: mid ++ [cl] ++ post` with no `op` in
`pre` and no `cl` in `post`, the greedy regex span is exactly the middle
bracketed segment. -/
lemma greedySpan_decompose (op cl : Char) (pre mid post : List Char)
    (hpre : op ∉ pre) (hpost : cl ∉ post) :
    greedySpan op cl (pre ++ (op :: (mid ++ [cl])) ++ post) =
      some (op :: (mid ++ [cl])) := by
  have hfirst : firstIdx op (pre ++ (op :: (mid ++ [cl])) ++ post) =
      some pre.length := by
    have := firstIdx_append_cons pre ((mid ++ [cl]) ++ post) hpre
    simpa [List.append_assoc] using this
  have hlast : lastIdx cl (pre ++ (op :: (mid ++ [cl])) ++ post) =
      some (pre.length + mid.length + 1) := by
    have h1 : pre ++ (op :: (mid ++ [cl])) ++ post =
        ((pre ++ op :: mid) ++ [cl]) ++ post := by
      simp [List.append_assoc]
    rw [h1, lastIdx_append_of_not_mem _ _ hpost, lastIdx_snoc_self]
    have hlen : (pre ++ op :: mid).length = pre.length + mid.length + 1 := by
      simp only [List.length_append, List.length_cons]
      omega
    rw [hlen]
  rw [greedySpan, hfirst, hlast]
  have hlt : pre.length < pre.length + mid.length + 1 := by omega
  change (if pre.length < pre.length + mid.length + 1 then
      some (((pre ++ (op :: (mid ++ [cl])) ++ post).drop pre.length).take
        (pre.length + mid.length + 1 - pre.length + 1))
    else none) = some (op :: (mid ++ [cl]))
  rw [if_pos hlt]
  have hdrop : (pre ++ (op :: (mid ++ [cl])) ++ post).drop pre.length =
      (op :: (mid ++ [cl])) ++ post := by
    have h1 : pre ++ (op :: (mid ++ [cl])) ++ post =
        pre ++ ((op :: (mid ++ [cl])) ++ post) := by
      simp [List.append_assoc]
    rw [h1, List.drop_left]
  rw [hdrop]
  have htake : ((op :: (mid ++ [cl])) ++ post).take
      (pre.length + mid.length + 1 - pre.length + 1) = op :: (mid ++ [cl]) := by
    have hlen : (op :: (mid ++ [cl])).length =
        pre.length + mid.length + 1 - pre.length + 1 := by
      simp only [List.length_cons, List.length_append, List.length_nil]
      omega
    rw [← hlen, List.take_left]
  rw [htake]

/-- Claim C3 (counterexample): on a response holding two separate bracketed
arrays, the implementation matches greedily from the first `[` to the last
`]`, fails to parse the enclosed text as JSON, and returns the empty list —
not the parse of the first balanced `[...]` span, which is `["x"]`. -/
theorem stage3_not_first_balanced_counterexample :
    stage3ExtractMolecules "Sure: [\"x\"] and [\"y\"] done" = [] ∧
    firstBalancedSpan '[' ']' "Sure: [\"x\"] and [\"y\"] done".toList =
      some "[\"x\"]".toList ∧
    jsonLoadsL "[\"x\"]".toList = some (Json.arr [Json.str "x"]) ∧
    ([] : List Json) ≠ [Json.str "x"] := by
  refine ⟨rfl, rfl, rfl, ?_⟩
  intro h
  exact List.noConfusion h

/-- Claim C3 (amended): extraction takes the greedy span from the first `[`
to the last `]` of the raw response (so prose before the array and
`]`-free prose after it are ignored), `json.loads`-parses it, and returns the
parsed array — the claimed concrete example holds — while a missing span or a
span that fails to parse (e.g. when the trailing prose contains `]`) yields
the empty list; the span is not the first balanced `[...]` span in general. -/
theorem stage3_greedy_json_array :
    stage3ExtractMolecules "Sure, here: [\"nitrate\", \"fumarate\"] — done" =
      [Json.str "nitrate", Json.str "fumarate"] ∧
    (∀ pre mid post : List Char, '[' ∉ pre → ']' ∉ post →
       ∀ xs, jsonLoadsL ('[' :: (mid ++ [']'])) = some (Json.arr xs) →
       stage3ExtractMolecules (String.mk (pre ++ ('[' :: (mid ++ [']'])) ++ post)) = xs) ∧
    (∀ s : String, greedySpan '[' ']' s.toList = none →
       stage3ExtractMolecules s = []) ∧
    (∀ (s : String) (span : List Char), greedySpan '[' ']' s.toList = some span →
       jsonLoadsL span = none → stage3ExtractMolecules s = []) := by
  refine ⟨rfl, ?_, ?_, ?_⟩
  · intro pre mid post hpre hpost xs hparse
    have htl : (String.mk (pre ++ ('[' :: (mid ++ [']'])) ++ post)).toList =
        pre ++ ('[' :: (mid ++ [']'])) ++ post := rfl
    rw [stage3ExtractMolecules, htl, greedySpan_decompose '[' ']' pre mid post hpre hpost]
    simp only [hparse]
  · intro s h
    rw [stage3ExtractMolecules, h]
  · intro s span hspan hparse
    rw [stage3ExtractMolecules, hspan]
    simp only [hparse]

/-- Claim C3 (witness): the amended theorem applied to a concrete response
with prose on both sides of the array. -/
theorem stage3_greedy_json_array_witness :
    '[' ∉ "Sure: ".toList ∧ ']' ∉ " done".toList ∧
    stage3ExtractMolecules (String.mk ("Sure: ".toList ++
      ('[' :: ("\"x\"".toList ++ [']'])) ++ " done".toList)) = [Json.str "x"] :=
  ⟨by decide, by decide,
   stage3_greedy_json_array.2.1 "Sure: ".toList "\"x\"".toList " done".toList
     (by decide) (by decide) [Json.str "x"] rfl⟩

/-- Claim C4 (counterexample): a response holding a valid JSON object whose
trailing garbage contains `}` makes the greedy span run past the object; the
parse fails and the stage returns the empty-arrays fallback instead of the
parsed object's fields. -/
theorem stage4_trailing_garbage_counterexample :
    jsonLoads "\x7b\"topics\": [\"a\"], \"keywords\": [\"b\"]\x7d" =
      some (Json.obj [("topics", Json.arr [Json.str "a"]),
                      ("keywords", Json.arr [Json.str "b"])]) ∧
    stage4ExtractTopicsKeywords "\x7b\"topics\": [\"a\"], \"keywords\": [\"b\"]\x7d x\x7d" "123" =
      topicsKeywordsSentinel "123" ∧
    dictGetList (topicsKeywordsSentinel "123") "topics" ≠ Json.arr [Json.str "a"] := by
  refine ⟨rfl, rfl, ?_⟩
  intro h
  rw [show dictGetList (topicsKeywordsSentinel "123") "topics" = Json.arr [] from rfl] at h
  injection h with h'
  exact List.noConfusion h'

/-- Claim C4 (amended): the stage parses the greedy span from the first `{`
to the last `}`; when the response is a valid JSON object followed by
trailing text containing no `}` (and preceded by text containing no `{`),
the parsed object's fields are returned unaffected; a missing span or a
failed parse — in particular trailing garbage containing `}` — yields the
fallback object whose `topics` and `keywords` are empty arrays. -/
theorem stage4_greedy_json_object :
    (∀ (pre mid post : List Char) (pmid : String), '{' ∉ pre → '}' ∉ post →
       ∀ fs, jsonLoadsL ('{' :: (mid ++ ['}'])) = some (Json.obj fs) →
       stage4ExtractTopicsKeywords
         (String.mk (pre ++ ('{' :: (mid ++ ['}'])) ++ post)) pmid = fs) ∧
    (∀ s pmid : String, greedySpan '{' '}' s.toList = none →
       stage4ExtractTopicsKeywords s pmid = topicsKeywordsSentinel pmid) ∧
    (∀ (s pmid : String) (span : List Char), greedySpan '{' '}' s.toList = some span →
       jsonLoadsL span = none →
       stage4ExtractTopicsKeywords s pmid = topicsKeywordsSentinel pmid) ∧
    dictGetList (topicsKeywordsSentinel "7") "topics" = Json.arr [] ∧
    dictGetList (topicsKeywordsSentinel "7") "keywords" = Json.arr [] := by
  refine ⟨?_, ?_, ?_, rfl, rfl⟩
  · intro pre mid post pmid hpre hpost fs hparse
    have htl : (String.mk (pre ++ ('{' :: (mid ++ ['}'])) ++ post)).toList =
        pre ++ ('{' :: (mid ++ ['}'])) ++ post := rfl
    rw [stage4ExtractTopicsKeywords, htl,
      greedySpan_decompose '{' '}' pre mid post hpre hpost]
    simp only [hparse]
  · intro s pmid h
    rw [stage4ExtractTopicsKeywords, h]
  · intro s pmid span hspan hparse
    rw [stage4ExtractTopicsKeywords, hspan]
    simp only [hparse]

/-- Claim C4 (witness): the amended theorem applied to a concrete object
response with `}`-free trailing garbage. -/
theorem stage4_greedy_json_object_witness :
    '{' ∉ ([] : List Char) ∧ '}' ∉ " trailing garbage".toList ∧
    stage4ExtractTopicsKeywords
      (String.mk ([] ++ ('{' :: ("\"topics\": [\"a\"], \"keywords\": [\"b\"]".toList
        ++ ['}'])) ++ " trailing garbage".toList)) "9" =
      [("topics", Json.arr [Json.str "a"]), ("keywords", Json.arr [Json.str "b"])] :=
  ⟨by decide, by decide,
   stage4_greedy_json_object.1 [] "\"topics\": [\"a\"], \"keywords\": [\"b\"]".toList
     " trailing garbage".toList "9" (by decide) (by decide)
     [("topics", Json.arr [Json.str "a"]), ("keywords", Json.arr [Json.str "b"])] rfl⟩

/-! Helper lemmas for the orchestrator (claim C1). -/

lemma contains_eq_true_iff_mem {l : List String} {a : String} :
    l.contains a = true ↔ a ∈ l := List.elem_iff

lemma contains_eq_false_iff_not_mem {l : List String} {a : String} :
    l.contains a = false ↔ a ∉ l := by
  rw [← contains_eq_true_iff_mem]
  cases l.contains a <;> simp


lemma processArticle_no_pmid {store : List String} {a : ArticleFile}
    (hf : findPMID a.filename.toList = none) :
    processArticle store a = ⟨store, 0, false⟩ := by
  have hf' : findPMID a.filename.data = none := hf
  simp [processArticle, hf']

lemma processArticle_already {store : List String} {a : ArticleFile} {ds : List Char}
    (hf : findPMID a.filename.toList = some ds)
    (hc : store.contains (String.mk ds) = true) :
    processArticle store a = ⟨store, 0, false⟩ := by
  have hf' : findPMID a.filename.data = some ds := hf
  have hm : String.mk ds ∈ store := contains_eq_true_iff_mem.mp hc
  simp [processArticle, hf', hm]

lemma processArticle_short {store : List String} {a : ArticleFile} {ds : List Char}
    (hf : findPMID a.filename.toList = some ds)
    (hb : a.body.length < 500) :
    processArticle store a = ⟨store, 0, false⟩ := by
  have hf' : findPMID a.filename.data = some ds := hf
  simp [processArticle, hf', hb]

lemma processArticle_write {store : List String} {a : ArticleFile} {ds : List Char}
    (hf : findPMID a.filename.toList = some ds)
    (hc : store.contains (String.mk ds) = false)
    (hb : ¬ a.body.length < 500) :
    processArticle store a = ⟨store ++ [String.mk ds], 4, true⟩ := by
  have hf' : findPMID a.filename.data = some ds := hf
  have hm : String.mk ds ∉ store := contains_eq_false_iff_not_mem.mp hc
  simp [processArticle, hf', hm, hb]

lemma validPMID_eq_none_of_no_pmid {a : ArticleFile}
    (hf : findPMID a.filename.toList = none) : validPMID a = none := by
  have hf' : findPMID a.filename.data = none := hf
  simp [validPMID, hf']

lemma validPMID_eq_none_of_short {a : ArticleFile} {ds : List Char}
    (hf : findPMID a.filename.toList = some ds) (hb : a.body.length < 500) :
    validPMID a = none := by
  have hf' : findPMID a.filename.data = some ds := hf
  simp [validPMID, hf', hb]

lemma validPMID_eq_some {a : ArticleFile} {ds : List Char}
    (hf : findPMID a.filename.toList = some ds) (hb : ¬ a.body.length < 500) :
    validPMID a = some (String.mk ds) := by
  have hf' : findPMID a.filename.data = some ds := hf
  simp [validPMID, hf', hb]

lemma mem_processArticle_store {p : String} (store : List String) (a : ArticleFile)
    (h : p ∈ store) : p ∈ (processArticle store a).store := by
  cases hf : findPMID a.filename.toList with
  | none => rw [processArticle_no_pmid hf]; exact h
  | some ds =>
    cases hc : store.contains (String.mk ds) with
    | true => rw [processArticle_already hf hc]; exact h
    | false =>
      by_cases hb : a.body.length < 500
      · rw [processArticle_short hf hb]; exact h
      · rw [processArticle_write hf hc hb]
        exact List.mem_append_left _ h

lemma mem_runAll_of_mem (as : List ArticleFile) :
    ∀ (store : List String) (p : String), p ∈ store → p ∈ (runAll store as).1 := by
  induction as with
  | nil => intro store p h; exact h
  | cons a rest ih =>
    intro store p h
    exact ih (processArticle store a).store p (mem_processArticle_store store a h)

lemma valid_mem_processArticle {p : String} (store : List String) (a : ArticleFile)
    (h : validPMID a = some p) : p ∈ (processArticle store a).store := by
  cases hf : findPMID a.filename.toList with
  | none => rw [validPMID_eq_none_of_no_pmid hf] at h; exact absurd h (by simp)
  | some ds =>
    by_cases hb : a.body.length < 500
    · rw [validPMID_eq_none_of_short hf hb] at h; exact absurd h (by simp)
    · rw [validPMID_eq_some hf hb] at h
      have hp : String.mk ds = p := by injection h
      cases hc : store.contains (String.mk ds) with
      | true =>
        rw [processArticle_already hf hc]
        rw [← hp]
        exact contains_eq_true_iff_mem.mp hc
      | false =>
        rw [processArticle_write hf hc hb]
        exact List.mem_append_right _ (by simp [hp])

lemma valid_mem_runAll (as : List ArticleFile) :
    ∀ (store : List String) (a : ArticleFile) (p : String),
      a ∈ as → validPMID a = some p → p ∈ (runAll store as).1 := by
  induction as with
  | nil => intro store a p ha; exact absurd ha (by simp)
  | cons b rest ih =>
    intro store a p ha hv
    rcases List.mem_cons.mp ha with hab | harest
    · subst hab
      exact mem_runAll_of_mem rest _ p (valid_mem_processArticle store a hv)
    · exact ih (processArticle store b).store a p harest hv

lemma runAll_skip (as : List ArticleFile) :
    ∀ store : List String,
      (∀ a ∈ as, ∀ p, validPMID a = some p → store.contains p = true) →
      runAll store as = (store, 0) := by
  induction as with
  | nil => intro store _; rfl
  | cons a rest ih =>
    intro store h
    have hskip : processArticle store a = ⟨store, 0, false⟩ := by
      cases hf : findPMID a.filename.toList with
      | none => exact processArticle_no_pmid hf
      | some ds =>
        cases hc : store.contains (String.mk ds) with
        | true => exact processArticle_already hf hc
        | false =>
          by_cases hb : a.body.length < 500
          · exact processArticle_short hf hb
          · have htrue := h a (by simp) (String.mk ds) (validPMID_eq_some hf hb)
            rw [htrue] at hc
            exact absurd hc (by simp)
    rw [runAll, hskip]
    have hrest := ih store (fun a ha p hv => h a (by simp [ha]) p hv)
    simp [hrest]

lemma count_runAll (as : List ArticleFile) :
    ∀ (store : List String) (p : String), store.count p ≤ 1 →
      (runAll store as).1.count p =
        if store.contains p || as.any (fun x => validPMID x = some p) then 1 else 0 := by
  induction as with
  | nil =>
    intro store p h
    simp only [runAll, List.any_nil, Bool.or_false]
    cases hcp : store.contains p with
    | true =>
      have hmem : p ∈ store := contains_eq_true_iff_mem.mp hcp
      have hpos : 0 < store.count p := List.count_pos_iff.mpr hmem
      simp only [if_true]
      omega
    | false =>
      have hmem : p ∉ store := contains_eq_false_iff_not_mem.mp hcp
      simp [List.count_eq_zero.mpr hmem]
  | cons a rest ih =>
    intro store p h
    rw [runAll]
    cases hf : findPMID a.filename.toList with
    | none =>
      rw [processArticle_no_pmid hf]
      have hv := validPMID_eq_none_of_no_pmid hf
      simp only [List.any_cons, hv]
      rw [ih store p h]
      simp
    | some ds =>
      cases hc : store.contains (String.mk ds) with
      | true =>
        rw [processArticle_already hf hc]
        by_cases hp : p = String.mk ds
        · have hcp : store.contains p = true := by rw [hp]; exact hc
          rw [ih store p h]
          simp [contains_eq_true_iff_mem.mp hcp]
        · have hhead : (validPMID a = some p) = False := by
            simp only [eq_iff_iff, iff_false]
            intro hv
            by_cases hfb : a.body.length < 500
            · rw [validPMID_eq_none_of_short hf hfb] at hv
              exact Option.noConfusion hv
            · rw [validPMID_eq_some hf hfb] at hv
              have h2 : String.mk ds = p := by injection hv
              exact hp h2.symm
          rw [ih store p h]
          simp [hhead]
      | false =>
        by_cases hb : a.body.length < 500
        · rw [processArticle_short hf hb]
          have hv := validPMID_eq_none_of_short hf hb
          simp only [List.any_cons, hv]
          rw [ih store p h]
          simp
        · rw [processArticle_write hf hc hb]
          have hv := validPMID_eq_some hf hb
          have hnotmem : String.mk ds ∉ store := contains_eq_false_iff_not_mem.mp hc
          by_cases hp : p = String.mk ds
          · rw [← hp] at hv ⊢
            have hzero : store.count p = 0 := by
              rw [hp]
              exact List.count_eq_zero.mpr hnotmem
            have hone : (store ++ [p]).count p = 1 := by
              rw [List.count_append, hzero]
              simp
            rw [ih (store ++ [p]) p (by omega)]
            have hcont : (store ++ [p]).contains p = true :=
              contains_eq_true_iff_mem.mpr (List.mem_append_right _ (by simp))
            simp [hcont, hv]
          · have hcount : (store ++ [String.mk ds]).count p = store.count p := by
              rw [List.count_append]
              have hz : [String.mk ds].count p = 0 :=
                List.count_eq_zero.mpr (by simpa using hp)
              omega
            have hcont : (store ++ [String.mk ds]).contains p = store.contains p := by
              cases hsp : store.contains p with
              | true =>
                exact contains_eq_true_iff_mem.mpr
                  (List.mem_append_left _ (contains_eq_true_iff_mem.mp hsp))
              | false =>
                cases hsp2 : (store ++ [String.mk ds]).contains p with
                | false => rfl
                | true =>
                  exfalso
                  rcases List.mem_append.mp (contains_eq_true_iff_mem.mp hsp2) with hmem | hmem
                  · exact contains_eq_false_iff_not_mem.mp hsp hmem
                  · simp at hmem
                    exact hp hmem
            have hhead : (validPMID a = some p) = False := by
              simp only [eq_iff_iff, iff_false]
              intro hv2
              rw [hv] at hv2
              exact hp (by injection hv2 with h2; exact h2.symm)
            rw [ih (store ++ [String.mk ds]) p (by omega)]
            rw [hcont]
            simp [hhead]

/-- Claim C1: when an article's PMID is derivable and its output record
already exists, `process_article` returns with no LLM call and no write; from
an empty summaries directory the orchestrator produces exactly one output
record per valid article ID (derivable PMID, body of at least 500
characters); and re-running the orchestrator over the same input set leaves
the store unchanged and performs zero LLM calls. -/
theorem processArticle_idempotent_resume :
    (∀ (store : List String) (a : ArticleFile) (ds : List Char),
       findPMID a.filename.toList = some ds →
       store.contains (String.mk ds) = true →
       processArticle store a = ⟨store, 0, false⟩) ∧
    (∀ (articles : List ArticleFile) (p : String),
       (runAll [] articles).1.count p =
         if articles.any (fun x => validPMID x = some p) then 1 else 0) ∧
    (∀ (store : List String) (articles : List ArticleFile),
       runAll (runAll store articles).1 articles = ((runAll store articles).1, 0)) := by
  refine ⟨?_, ?_, ?_⟩
  · intro store a ds hf hc
    exact processArticle_already hf hc
  · intro articles p
    have := count_runAll articles [] p (by simp)
    simpa using this
  · intro store articles
    apply runAll_skip
    intro a ha p hv
    exact contains_eq_true_iff_mem.mpr (valid_mem_runAll articles store a p ha hv)

set_option maxRecDepth 4000 in
/-- Claim C1 (witness): the theorem applied to a concrete store and article —
the article `PMID42.xml` whose record exists is skipped, a fresh single-file
run creates exactly one record, and the immediate second run is a no-op. -/
theorem processArticle_idempotent_resume_witness :
    findPMID ("PMID42.xml" : String).toList = some "42".toList ∧
    (["42"] : List String).contains (String.mk "42".toList) = true ∧
    processArticle ["42"] ⟨"PMID42.xml", "t", "a", String.mk (List.replicate 600 'b')⟩ =
      ⟨["42"], 0, false⟩ ∧
    (runAll [] [⟨"PMID42.xml", "t", "a", String.mk (List.replicate 600 'b')⟩]).1.count "42" = 1 ∧
    runAll
        (runAll [] [⟨"PMID42.xml", "t", "a", String.mk (List.replicate 600 'b')⟩]).1
        [⟨"PMID42.xml", "t", "a", String.mk (List.replicate 600 'b')⟩] =
      ((runAll [] [⟨"PMID42.xml", "t", "a", String.mk (List.replicate 600 'b')⟩]).1, 0) := by
  refine ⟨rfl, rfl, ?_, ?_, ?_⟩
  · exact processArticle_idempotent_resume.1 ["42"]
      ⟨"PMID42.xml", "t", "a", String.mk (List.replicate 600 'b')⟩ "42".toList rfl rfl
  · rw [processArticle_idempotent_resume.2.1]
    rfl
  · exact processArticle_idempotent_resume.2.2 []
      [⟨"PMID42.xml", "t", "a", String.mk (List.replicate 600 'b')⟩]

/-- Claim C5 (witness): the theorem applied to the concrete entity
`"alpha-ketoglutarate"` and a concrete record whose unsupported entity lands
in the removed list. -/
theorem checkTermExists_three_tests_witness :
    checkTermExists "alpha-ketoglutarate" "Levels of alpha ketoglutarate rose" =
      (testExact "alpha-ketoglutarate" "Levels of alpha ketoglutarate rose" ||
       testHyphenSpace "alpha-ketoglutarate" "Levels of alpha ketoglutarate rose" ||
       testSignificantTokens "alpha-ketoglutarate" "Levels of alpha ketoglutarate rose") ∧
    "bogusterm" ∈ (verifyMolecules ["alpha-ketoglutarate", "bogusterm"]
      "Levels of alpha ketoglutarate rose").2 :=
  ⟨checkTermExists_three_tests.1 "alpha-ketoglutarate"
     "Levels of alpha ketoglutarate rose" (by decide) (by decide),
   (checkTermExists_three_tests.2.1 ["alpha-ketoglutarate", "bogusterm"]
     "Levels of alpha ketoglutarate rose" "bogusterm" (by decide) (by decide)).1⟩

end Fixathon
